import Mathlib

/-!
Shallow embedding of `src/serializers/src/json/lexer.rs` (crate `serializers`,
module `json::lexer`) from the `rust_ge` repository.

Conventions of the embedding:
* A byte (Rust `u8`) is a `Nat`; the input text (`json_text : String`, accessed
  through `as_bytes()`) is a `List Nat`.
* A Rust slice read `json[i]` panics when `i` is out of bounds.  Unguarded reads
  are modelled with `List.getElem?`; the `none` case propagates outward, so a
  function result of `none` (or `ScanResult.crash`) means the Rust code panics
  with an index-out-of-bounds error on that input.  Reads that sit behind an
  `is_eof` guard in the source cannot panic; where convenient they are modelled
  with `getD` under the guard hypothesis.
* `i64` is `Int` with an explicit range check in the parse function; `f64` is
  modelled as the exact decimal rational `ℚ` (IEEE rounding and the `inf`/`nan`
  spellings of Rust's float grammar are not modelled: no scanned span can spell
  them and no theorem below depends on a float's numeric value, only on parse
  success or failure).
* Rust `String` values (the payload of string tokens) are modelled as the byte
  sequence of the UTF-8 text produced by `String::from_utf8_lossy`.
-/

/-- The source's `is_eof(index, size)`: `index >= size`. -/
def is_eof (index size : Nat) : Bool :=
  Nat.ble size index

/-- Rust `u8::is_ascii_whitespace`: space, tab, line feed, form feed, carriage return. -/
def isAsciiWhitespace (b : Nat) : Bool :=
  b == 32 || b == 9 || b == 10 || b == 12 || b == 13

/-- Rust `char::is_numeric` restricted to the code points a `u8 as char` cast can
produce (U+0000..U+00FF): the ASCII digits `0`..`9` (48..57) and the six Latin-1
numeric characters U+00B2, U+00B3, U+00B9, U+00BC, U+00BD, U+00BE.  The source
classifies bytes with `(ch as char).is_numeric()`. -/
def charIsNumeric (b : Nat) : Bool :=
  (48 ≤ b && b ≤ 57) || b == 178 || b == 179 || b == 185 || b == 188 || b == 189 || b == 190

/-- The source's `is_str_start`: the byte is a double quote. -/
def is_str_start (c : Nat) : Bool :=
  c == 34

/-- An ASCII decimal digit. -/
def isAsciiDigit (b : Nat) : Bool :=
  48 ≤ b && b ≤ 57

/-- Rust slice `json[a..b]` (every call site below satisfies `a ≤ b ≤ json.length`,
under which Rust slicing does not panic). -/
def extract (json : List Nat) (a b : Nat) : List Nat :=
  (json.take b).drop a

/-- The three UTF-8 bytes of U+FFFD, the replacement character. -/
def replacementChar : List Nat := [239, 191, 189]

/-- A UTF-8 continuation byte (0x80..0xBF). -/
def isCont (b : Nat) : Bool :=
  128 ≤ b && b ≤ 191

/-- For a UTF-8 lead byte: the number of continuation bytes it requires together
with the admissible range of the first continuation byte (per the restricted
ranges of `core::str` validation); `none` for a byte that cannot start a
multi-byte sequence. -/
def utf8ContRange (b : Nat) : Option (Nat × Nat × Nat) :=
  if 194 ≤ b && b ≤ 223 then some (1, 128, 191)
  else if b == 224 then some (2, 160, 191)
  else if 225 ≤ b && b ≤ 236 then some (2, 128, 191)
  else if b == 237 then some (2, 128, 159)
  else if 238 ≤ b && b ≤ 239 then some (2, 128, 191)
  else if b == 240 then some (3, 144, 191)
  else if 241 ≤ b && b ≤ 243 then some (3, 128, 191)
  else if b == 244 then some (3, 128, 143)
  else none

/-- Rust `String::from_utf8_lossy` on a byte sequence, as the bytes of the resulting
text: valid UTF-8 sequences are kept verbatim; each maximal invalid subpart
(per the WHATWG substitution used by Rust) is replaced by one U+FFFD. -/
def utf8Lossy : List Nat → List Nat
  | [] => []
  | b :: rest =>
    if b ≤ 127 then b :: utf8Lossy rest
    else
      match utf8ContRange b with
      | none => replacementChar ++ utf8Lossy rest
      | some (n, lo, hi) =>
        match n, rest with
        | 1, c1 :: r =>
          if lo ≤ c1 && c1 ≤ hi then b :: c1 :: utf8Lossy r
          else replacementChar ++ utf8Lossy (c1 :: r)
        | 2, c1 :: c2 :: r =>
          if lo ≤ c1 && c1 ≤ hi then
            if isCont c2 then b :: c1 :: c2 :: utf8Lossy r
            else replacementChar ++ utf8Lossy (c2 :: r)
          else replacementChar ++ utf8Lossy (c1 :: c2 :: r)
        | 3, c1 :: c2 :: c3 :: r =>
          if lo ≤ c1 && c1 ≤ hi then
            if isCont c2 then
              if isCont c3 then b :: c1 :: c2 :: c3 :: utf8Lossy r
              else replacementChar ++ utf8Lossy (c3 :: r)
            else replacementChar ++ utf8Lossy (c2 :: r)
          else replacementChar ++ utf8Lossy (c1 :: c2 :: c3 :: r)
        | 2, [c1] =>
          -- truncated sequence at end of input
          if lo ≤ c1 && c1 ≤ hi then replacementChar
          else replacementChar ++ utf8Lossy [c1]
        | 3, [c1] =>
          if lo ≤ c1 && c1 ≤ hi then replacementChar
          else replacementChar ++ utf8Lossy [c1]
        | 3, [c1, c2] =>
          if lo ≤ c1 && c1 ≤ hi then
            if isCont c2 then replacementChar
            else replacementChar ++ utf8Lossy [c2]
          else replacementChar ++ utf8Lossy [c1, c2]
        | _, _ => replacementChar
  termination_by l => l.length
  decreasing_by all_goals simp_all <;> omega

/-- The numeric value of a list of ASCII digit bytes (most significant first). -/
def digitsVal (l : List Nat) : Nat :=
  l.foldl (fun acc b => acc * 10 + (b - 48)) 0

/-- Rust `i64::from_str_radix(s, 10)`: an optional `+`/`-` sign followed by at least
one ASCII digit, with the value required to fit in a signed 64-bit integer;
anything else is a parse error (`none`). -/
def rustParseI64 (s : List Nat) : Option Int :=
  let signed : Bool × List Nat :=
    match s with
    | 43 :: r => (false, r)
    | 45 :: r => (true, r)
    | _ => (false, s)
  let neg := signed.1
  let ds := signed.2
  if ds.isEmpty || !(ds.all isAsciiDigit) then none
  else
    let v : Int := if neg then -(digitsVal ds : Int) else (digitsVal ds : Int)
    if -(2 ^ 63) ≤ v ∧ v ≤ 2 ^ 63 - 1 then some v else none

/-- Rust `str::parse::<f64>` on the scanned span: optional sign, then a significand
`digits`, `digits . digits?` or `. digits`, then an optional exponent
`e`/`E`, optional sign, one or more digits.  The value is modelled as the exact
decimal rational (see the module comment). -/
def rustParseF64 (s : List Nat) : Option ℚ :=
  let signed : Bool × List Nat :=
    match s with
    | 43 :: r => (false, r)
    | 45 :: r => (true, r)
    | _ => (false, s)
  let neg := signed.1
  let s1 := signed.2
  let intPart := s1.takeWhile isAsciiDigit
  let s2 := s1.dropWhile isAsciiDigit
  let fracState : List Nat × List Nat :=
    match s2 with
    | 46 :: r => (r.takeWhile isAsciiDigit, r.dropWhile isAsciiDigit)
    | _ => ([], s2)
  let fracPart := fracState.1
  let s3 := fracState.2
  if intPart.isEmpty && fracPart.isEmpty then none
  else
    let mant : ℚ :=
      (digitsVal intPart : ℚ) + (digitsVal fracPart : ℚ) / ((10 : ℚ) ^ fracPart.length)
    match s3 with
    | [] => some (if neg then -mant else mant)
    | e :: r =>
      if e == 101 || e == 69 then
        let esigned : Bool × List Nat :=
          match r with
          | 43 :: rr => (false, rr)
          | 45 :: rr => (true, rr)
          | _ => (false, r)
        let eneg := esigned.1
        let r1 := esigned.2
        let eds := r1.takeWhile isAsciiDigit
        let rest := r1.dropWhile isAsciiDigit
        if eds.isEmpty || !rest.isEmpty then none
        else
          let ev : ℚ := (10 : ℚ) ^ digitsVal eds
          let m := if eneg then mant / ev else mant * ev
          some (if neg then -m else m)
      else none

/-- The source's `ReserveCode`. -/
inductive ReserveCode where
  | OpenBrace
  | CloseBrace
  | OpenBracket
  | CloseBracket
  | Colon
  | Comma
  | Undefined
  deriving DecidableEq, Repr

/-- The source's `TokenType`.  `Number` carries the `i64`, `Float` the `f64`
(modelled exactly, see module comment), `String` the bytes of the decoded text.
The Rust `Token` struct is a record with the single field `token_type`; the
embedding works with `TokenType` directly. -/
inductive TokenType where
  | Reserve (reserve_id : ReserveCode)
  | Number (value : Int)
  | Float (value : ℚ)
  | Boolean (value : Bool)
  | String (value : List Nat)
  | Null
  | Undefined
  deriving DecidableEq, Repr

/-- Outcome of one of the fallible scanning routines: `crash` models a Rust
panic (out-of-bounds slice index), `fail j` models `return false` with the
cursor left at `j`, `ok t j` models `return true` with token `t` and cursor
`j`. -/
inductive ScanResult where
  | crash
  | fail (index : Nat)
  | ok (t : TokenType) (index : Nat)
  deriving DecidableEq, Repr

/-- The cursor position recorded in a scan outcome, when there is one (a panic
has none). -/
def ScanResult.endIdx : ScanResult → Option Nat
  | .crash => none
  | .fail j => some j
  | .ok _ j => some j

/-- The source's `JsonLexer`: the full input text and the scan cursor. -/
structure JsonLexer where
  json_text : List Nat
  index : Nat
  deriving DecidableEq, Repr

/-- The source's `JsonLexer::reset`: cursor back to 0, text untouched. -/
def reset (lx : JsonLexer) : JsonLexer :=
  { lx with index := 0 }

/-- The source's `JsonLexer::from_raw_json`: builds a lexer at cursor 0 from in-memory text
(`String::from_str` on a `&str` is infallible, hence always `some`). -/
def from_raw_json (raw_json : List Nat) : Option JsonLexer :=
  some { json_text := raw_json, index := 0 }

/-- The source's `skip_whitespace`: advance the cursor past ASCII whitespace.  The loop guard
is `!is_eof(index, size) && json[index].is_ascii_whitespace()`; the read is
behind the guard, so it cannot panic (`index < json.length` justifies `getD`). -/
def skipWhitespace (json : List Nat) (index : Nat) : Nat :=
  if h : index < json.length then
    if isAsciiWhitespace (json.getD index 0) then skipWhitespace json (index + 1) else index
  else index
  termination_by json.length - index

/-- The `while` loop of `get_integer_num`, entered with `ch = json[index]`
already read: while `ch` is numeric and not eof, advance; after advancing,
return at eof, else read the next byte (that read is behind the eof test, so
it cannot panic). -/
def getIntegerNumLoop (json : List Nat) (ch : Nat) (index : Nat) : Option Nat :=
  if h : charIsNumeric ch = true ∧ index < json.length then
    if is_eof (index + 1) json.length then some (index + 1)
    else
      match json[index + 1]? with
      | none => none
      | some c => getIntegerNumLoop json c (index + 1)
  else some index
  termination_by json.length - index
  decreasing_by omega

/-- The source's `get_integer_num`: its first line reads `json[*index]` with no bounds
check, so calling it at or past the end of the buffer panics (`none`). -/
def getIntegerNum (json : List Nat) (index : Nat) : Option Nat :=
  match json[index]? with
  | none => none
  | some ch => getIntegerNumLoop json ch index

/-- The final span parse of `load_number`: slice `json[token_start..index]`,
decode with `from_utf8_lossy`, then parse as `i64` (no float notation seen) or
as `f64`; a parse error is a scan failure with the cursor unchanged. -/
def finishNumber (json : List Nat) (flt : Bool) (token_start index : Nat) : ScanResult :=
  let as_str := utf8Lossy (extract json token_start index)
  if !flt then
    match rustParseI64 as_str with
    | some value => .ok (.Number value) index
    | none => .fail index
  else
    match rustParseF64 as_str with
    | some value => .ok (.Float value) index
    | none => .fail index

/-- The source's `load_number`.  Notable source behaviour kept verbatim:
* the first byte is consumed unconditionally, then `get_integer_num` is called,
  whose unguarded first read panics when that byte was the last of the input;
* the exponent test is reachable only inside the `.` (float) branch;
* by `&&`/`||` precedence the conditions read
  `ch == b'e' || (ch == b'E' && !is_eof(index + 1, size))` and
  `ch == b'-' || (ch == b'+' && !is_eof(index + 1, size))`, so a lowercase `e`
  (or a `-` sign) is accepted without checking that a byte follows, and the
  subsequent read panics at end of input. -/
def loadNumber (json : List Nat) (index0 : Nat) : ScanResult :=
  let token_start := index0
  let index1 := index0 + 1
  match getIntegerNum json index1 with
  | none => .crash
  | some index2 =>
    if is_eof index2 json.length then finishNumber json false token_start index2
    else
      match json[index2]? with
      | none => .crash  -- unreachable: guarded by the eof test above
      | some ch =>
        if ch == 46 then
          -- floating point notation: consume the dot, `flt = true`
          let index3 := index2 + 1
          match getIntegerNum json index3 with
          | none => .crash
          | some index4 =>
            if is_eof index4 json.length then finishNumber json true token_start index4
            else
              match json[index4]? with
              | none => .crash  -- unreachable: guarded
              | some ch2 =>
                if ch2 == 101 || (ch2 == 69 && !is_eof (index4 + 1) json.length) then
                  let index5 := index4 + 1
                  match json[index5]? with
                  | none => .crash  -- trailing lowercase e at end of input
                  | some ch3 =>
                    let signStep : Option (Nat × Nat) :=
                      if ch3 == 45 || (ch3 == 43 && !is_eof (index5 + 1) json.length) then
                        match json[index5 + 1]? with
                        | none => none  -- trailing sign at end of input
                        | some ch4 => some (ch4, index5 + 1)
                      else some (ch3, index5)
                    match signStep with
                    | none => .crash
                    | some (ch5, index6) =>
                      if !charIsNumeric ch5 then .fail index6
                      else
                        match getIntegerNum json index6 with
                        | none => .crash  -- unreachable: ch5 was read at index6
                        | some index7 => finishNumber json true token_start index7
                else finishNumber json true token_start index4
        else finishNumber json false token_start index2

/-- The cursor adjustment at the top of the string loop body:
`if ch == b'\\' { *index += 1; }`. -/
def strAdvance (ch index : Nat) : Nat :=
  if ch == 92 then index + 1 else index

/-- The `'str_contents` loop of `load_string`, entered with `ch = json[index]`.
Guard: `ch != ending_quote && !is_eof(index, size)`.  Body: a backslash skips
the following byte; then if `ch` is not a newline the cursor advances and the
next byte is read with no bounds check — the read panics (`none`) exactly when
the new cursor is out of bounds, so an unterminated string panics; a newline
breaks out.  Returns the final `(ch, index)` pair. -/
def loadStringLoop (json : List Nat) (ending_quote ch index : Nat) :
    Option (Nat × Nat) :=
  if h : ch ≠ ending_quote ∧ index < json.length then
    if ch ≠ 10 then
      if h2 : strAdvance ch index + 1 < json.length then
        loadStringLoop json ending_quote (json.getD (strAdvance ch index + 1) 0)
          (strAdvance ch index + 1)
      else none
    else some (ch, strAdvance ch index)
  else some (ch, index)
  termination_by json.length - index
  decreasing_by
    have hge : index ≤ strAdvance ch index := by
      unfold strAdvance; split <;> omega
    omega

/-- The source's `load_string`.  The read `ch = json[*index]` just after the opening quote
has no bounds check, so a quote as the final byte of the input panics.  On
success the payload is `from_utf8_lossy` of `json[token_start..*index - 1]`,
the span strictly between the delimiters, and the cursor is one past the
closing delimiter; a newline hit by the loop is a scan failure. -/
def loadString (json : List Nat) (index0 : Nat) : ScanResult :=
  match json[index0]? with
  | none => .crash
  | some ending_quote =>
    let index1 := index0 + 1
    let token_start := index1
    match json[index1]? with
    | none => .crash  -- opening quote was the last byte
    | some ch0 =>
      match loadStringLoop json ending_quote ch0 index1 with
      | none => .crash
      | some (ch, index2) =>
        if ch ≠ 10 then
          let index3 := index2 + 1
          .ok (.String (utf8Lossy (extract json token_start (index3 - 1)))) index3
        else .fail index2

/-- The source's `load_reserve`: consume exactly one byte and map it to a structural symbol;
any other byte is a scan failure (the cursor has already advanced past it). -/
def loadReserve (json : List Nat) (index : Nat) : ScanResult :=
  match json[index]? with
  | none => .crash  -- unreachable from next_token: the eof test guards the call
  | some ch =>
    let index1 := index + 1
    if ch == 123 then .ok (.Reserve .OpenBrace) index1
    else if ch == 125 then .ok (.Reserve .CloseBrace) index1
    else if ch == 91 then .ok (.Reserve .OpenBracket) index1
    else if ch == 93 then .ok (.Reserve .CloseBracket) index1
    else if ch == 58 then .ok (.Reserve .Colon) index1
    else if ch == 44 then .ok (.Reserve .Comma) index1
    else .fail index1

/-- The spellings `true`, `false`, `null` as byte sequences. -/
def trueTok : List Nat := [116, 114, 117, 101]

def falseTok : List Nat := [102, 97, 108, 115, 101]

def nullTok : List Nat := [110, 117, 108, 108]

/-- The source's `load_boolean_or_null`: try `true`, `false`, `null` in that order; each
comparison sits behind `!is_eof(index + token.len(), size)` — note this demands
`index + len < size`, i.e. at least one byte beyond the literal.  `some (t, j)`
is a match (`true` in the source); `none` means no match (`false`). -/
def loadBooleanOrNull (json : List Nat) (index : Nat) : Option (TokenType × Nat) :=
  if !is_eof (index + trueTok.length) json.length
      && extract json index (index + trueTok.length) == trueTok then
    some (.Boolean true, index + trueTok.length)
  else if !is_eof (index + falseTok.length) json.length
      && extract json index (index + falseTok.length) == falseTok then
    some (.Boolean false, index + falseTok.length)
  else if !is_eof (index + nullTok.length) json.length
      && extract json index (index + nullTok.length) == nullTok then
    some (.Null, index + nullTok.length)
  else none

/-- The source's `JsonLexer::next_token`.  Skip whitespace; at end of input the token is
`Undefined`; otherwise dispatch on the byte at the cursor: numeric or `-` to
the number scanner, `"` to the string scanner, then the keyword scanner, else
the structural-symbol scanner.  A scanner failure sets the token to `Undefined`
with the cursor wherever the scanner left it.  The result is the produced
token together with the updated lexer; `none` models a panic. -/
def nextToken (lx : JsonLexer) : Option (TokenType × JsonLexer) :=
  let json := lx.json_text
  let size := json.length
  let index := skipWhitespace json lx.index
  if is_eof index size then some (.Undefined, ⟨json, index⟩)
  else
    match json[index]? with
    | none => none  -- unreachable: guarded by the eof test
    | some ch =>
      if charIsNumeric ch || ch == 45 then
        match loadNumber json index with
        | .crash => none
        | .fail j => some (.Undefined, ⟨json, j⟩)
        | .ok t j => some (t, ⟨json, j⟩)
      else if is_str_start ch then
        match loadString json index with
        | .crash => none
        | .fail j => some (.Undefined, ⟨json, j⟩)
        | .ok t j => some (t, ⟨json, j⟩)
      else
        match loadBooleanOrNull json index with
        | some (t, j) => some (t, ⟨json, j⟩)
        | none =>
          match loadReserve json index with
          | .crash => none
          | .fail j => some (.Undefined, ⟨json, j⟩)
          | .ok t j => some (t, ⟨json, j⟩)

/-- Run `next_token` repeatedly from a state, recording the produced tokens;
a panic (`none`) ends the trace with a `none` entry. -/
def tokenTrace (lx : JsonLexer) : Nat → List (Option TokenType)
  | 0 => []
  | n + 1 =>
    match nextToken lx with
    | none => [none]
    | some (t, lx1) => some t :: tokenTrace lx1 n

/-- Run `next_token` a given number of times, keeping only the final state;
`none` if some call panics. -/
def runSteps (lx : JsonLexer) : Nat → Option JsonLexer
  | 0 => some lx
  | n + 1 =>
    match nextToken lx with
    | none => none
    | some (_, lx1) => runSteps lx1 n

set_option maxRecDepth 8192

/-! ## Basic facts about the scanning routines -/

theorem skipWhitespace_le (json : List Nat) (i : Nat) : i ≤ skipWhitespace json i := by
  induction i using skipWhitespace.induct json with
  | case1 i h hw ih =>
    rw [skipWhitespace]
    simp only [dif_pos h, if_pos hw]
    exact Nat.le_trans (Nat.le_succ i) ih
  | case2 i h hw =>
    rw [skipWhitespace]
    simp only [dif_pos h, if_neg hw]
    exact Nat.le_refl i
  | case3 i h =>
    rw [skipWhitespace]
    simp only [dif_neg h]
    exact Nat.le_refl i

theorem skipWhitespace_eof (json : List Nat) (i : Nat) (h : json.length ≤ i) :
    skipWhitespace json i = i := by
  rw [skipWhitespace]
  simp only [dif_neg (by omega : ¬ i < json.length)]

theorem getIntegerNumLoop_le (json : List Nat) (ch i j : Nat)
    (h : getIntegerNumLoop json ch i = some j) : i ≤ j := by
  induction ch, i using getIntegerNumLoop.induct json with
  | case1 ch i hg he =>
    rw [getIntegerNumLoop] at h
    simp only [dif_pos hg, if_pos he, Option.some.injEq] at h
    omega
  | case2 ch i hg he hn =>
    rw [getIntegerNumLoop] at h
    simp only [dif_pos hg, if_neg he, hn] at h
    exact Option.noConfusion h
  | case3 ch i hg he c hc ih =>
    rw [getIntegerNumLoop] at h
    simp only [dif_pos hg, if_neg he, hc] at h
    exact Nat.le_trans (Nat.le_succ i) (ih h)
  | case4 ch i hg =>
    rw [getIntegerNumLoop] at h
    simp only [dif_neg hg, Option.some.injEq] at h
    omega

theorem getIntegerNum_le (json : List Nat) (i j : Nat)
    (h : getIntegerNum json i = some j) : i ≤ j := by
  unfold getIntegerNum at h
  cases hc : json[i]? with
  | none => simp [hc] at h
  | some ch => exact getIntegerNumLoop_le json ch i j (by simpa [hc] using h)

theorem strAdvance_ge (ch i : Nat) : i ≤ strAdvance ch i := by
  unfold strAdvance; split <;> omega

theorem finishNumber_endIdx (json : List Nat) (flt : Bool) (s i : Nat) :
    (finishNumber json flt s i).endIdx = some i := by
  simp only [finishNumber]
  split <;> split <;> rfl

theorem loadNumber_mono (json : List Nat) (i j : Nat)
    (h : (loadNumber json i).endIdx = some j) : i ≤ j := by
  unfold loadNumber at h
  cases h1 : getIntegerNum json (i + 1) with
  | none => simp only [h1, ScanResult.endIdx] at h; exact Option.noConfusion h
  | some idx2 =>
    have le1 : i + 1 ≤ idx2 := getIntegerNum_le _ _ _ h1
    simp only [h1] at h
    by_cases e1 : is_eof idx2 json.length = true
    · simp only [e1, if_true, finishNumber_endIdx, Option.some.injEq] at h
      omega
    · simp only [e1, if_false, Bool.false_eq_true] at h
      cases h2 : json[idx2]? with
      | none => simp only [h2, ScanResult.endIdx] at h; exact Option.noConfusion h
      | some ch =>
        simp only [h2] at h
        by_cases e2 : (ch == 46) = true
        · simp only [e2, if_true] at h
          cases h3 : getIntegerNum json (idx2 + 1) with
          | none => simp only [h3, ScanResult.endIdx] at h; exact Option.noConfusion h
          | some idx4 =>
            have le2 : idx2 + 1 ≤ idx4 := getIntegerNum_le _ _ _ h3
            simp only [h3] at h
            by_cases e3 : is_eof idx4 json.length = true
            · simp only [e3, if_true, finishNumber_endIdx, Option.some.injEq] at h
              omega
            · simp only [e3, if_false, Bool.false_eq_true] at h
              cases h4 : json[idx4]? with
              | none => simp only [h4, ScanResult.endIdx] at h; exact Option.noConfusion h
              | some ch2 =>
                simp only [h4] at h
                by_cases e4 : (ch2 == 101 || (ch2 == 69 && !is_eof (idx4 + 1) json.length)) = true
                · simp only [e4, if_true] at h
                  cases h5 : json[idx4 + 1]? with
                  | none => simp only [h5, ScanResult.endIdx] at h; exact Option.noConfusion h
                  | some ch3 =>
                    simp only [h5] at h
                    by_cases e5 :
                        (ch3 == 45 || (ch3 == 43 && !is_eof (idx4 + 1 + 1) json.length)) = true
                    · simp only [e5, if_true] at h
                      cases h6 : json[idx4 + 1 + 1]? with
                      | none =>
                        simp only [h6, ScanResult.endIdx] at h; exact Option.noConfusion h
                      | some ch4 =>
                        simp only [h6] at h
                        by_cases e6 : (!charIsNumeric ch4) = true
                        · simp only [e6, if_true, ScanResult.endIdx, Option.some.injEq] at h
                          omega
                        · simp only [e6, if_false, Bool.false_eq_true] at h
                          cases h7 : getIntegerNum json (idx4 + 1 + 1) with
                          | none =>
                            simp only [h7, ScanResult.endIdx] at h; exact Option.noConfusion h
                          | some idx7 =>
                            have le3 : idx4 + 1 + 1 ≤ idx7 := getIntegerNum_le _ _ _ h7
                            simp only [h7, finishNumber_endIdx, Option.some.injEq] at h
                            omega
                    · simp only [e5, if_false, Bool.false_eq_true] at h
                      by_cases e6 : (!charIsNumeric ch3) = true
                      · simp only [e6, if_true, ScanResult.endIdx, Option.some.injEq] at h
                        omega
                      · simp only [e6, if_false, Bool.false_eq_true] at h
                        cases h7 : getIntegerNum json (idx4 + 1) with
                        | none =>
                          simp only [h7, ScanResult.endIdx] at h; exact Option.noConfusion h
                        | some idx7 =>
                          have le3 : idx4 + 1 ≤ idx7 := getIntegerNum_le _ _ _ h7
                          simp only [h7, finishNumber_endIdx, Option.some.injEq] at h
                          omega
                · simp only [e4, if_false, Bool.false_eq_true, finishNumber_endIdx,
                    Option.some.injEq] at h
                  omega
        · simp only [e2, if_false, Bool.false_eq_true, finishNumber_endIdx,
            Option.some.injEq] at h
          omega

theorem loadStringLoop_spec (json : List Nat) (q : Nat) :
    ∀ ch i, json[i]? = some ch →
      ∀ ch2 j, loadStringLoop json q ch i = some (ch2, j) →
        json[j]? = some ch2 ∧ i ≤ j ∧ (ch2 = q ∨ ch2 = 10) := by
  intro ch i
  induction ch, i using loadStringLoop.induct json q with
  | case1 ch i hg hnl h2 ih =>
    intro hpre ch2 j h
    rw [loadStringLoop] at h
    simp only [dif_pos hg, if_pos hnl, dif_pos h2] at h
    have hpre2 : json[strAdvance ch i + 1]? = some (json.getD (strAdvance ch i + 1) 0) := by
      rw [List.getElem?_eq_getElem h2, List.getD_eq_getElem json 0 h2]
    have := ih hpre2 ch2 j h
    have hadv := strAdvance_ge ch i
    exact ⟨this.1, by omega, this.2.2⟩
  | case2 ch i hg hnl h2 =>
    intro hpre ch2 j h
    rw [loadStringLoop] at h
    simp only [dif_pos hg, if_pos hnl, dif_neg h2] at h
    exact Option.noConfusion h
  | case3 ch i hg hnl =>
    intro hpre ch2 j h
    rw [loadStringLoop] at h
    simp only [dif_pos hg, if_neg hnl, Option.some.injEq, Prod.mk.injEq] at h
    have hch : ch = 10 := by omega
    have hadv : strAdvance ch i = i := by
      unfold strAdvance
      simp [hch]
    rw [hadv] at h
    obtain ⟨h1, h2⟩ := h
    subst h1; subst h2
    exact ⟨hpre, Nat.le_refl i, Or.inr hch⟩
  | case4 ch i hg =>
    intro hpre ch2 j h
    rw [loadStringLoop] at h
    simp only [dif_neg hg, Option.some.injEq, Prod.mk.injEq] at h
    obtain ⟨h1, h2⟩ := h
    subst h1; subst h2
    have hlt : i < json.length := (List.getElem?_eq_some_iff.mp hpre).1
    have : ch = q := by
      by_contra hne
      exact hg ⟨hne, hlt⟩
    exact ⟨hpre, Nat.le_refl i, Or.inl this⟩

theorem loadString_mono (json : List Nat) (i j : Nat)
    (h : (loadString json i).endIdx = some j) : i ≤ j := by
  unfold loadString at h
  cases h1 : json[i]? with
  | none => simp only [h1, ScanResult.endIdx] at h; exact Option.noConfusion h
  | some q =>
    simp only [h1] at h
    cases h2 : json[i + 1]? with
    | none => simp only [h2, ScanResult.endIdx] at h; exact Option.noConfusion h
    | some ch0 =>
      simp only [h2] at h
      cases h3 : loadStringLoop json q ch0 (i + 1) with
      | none => simp only [h3, ScanResult.endIdx] at h; exact Option.noConfusion h
      | some p =>
        obtain ⟨ch, idx2⟩ := p
        have hsp := loadStringLoop_spec json q ch0 (i + 1) h2 ch idx2 h3
        simp only [h3] at h
        by_cases e1 : ch ≠ 10
        · simp only [if_pos e1, ScanResult.endIdx, Option.some.injEq] at h
          omega
        · simp only [if_neg e1, ScanResult.endIdx, Option.some.injEq] at h
          omega

theorem loadBooleanOrNull_le (json : List Nat) (i : Nat) (t : TokenType) (j : Nat)
    (h : loadBooleanOrNull json i = some (t, j)) : i ≤ j := by
  unfold loadBooleanOrNull at h
  split at h
  · simp only [Option.some.injEq, Prod.mk.injEq] at h
    omega
  · split at h
    · simp only [Option.some.injEq, Prod.mk.injEq] at h
      omega
    · split at h
      · simp only [Option.some.injEq, Prod.mk.injEq] at h
        omega
      · exact Option.noConfusion h

theorem loadReserve_endIdx (json : List Nat) (i j : Nat)
    (h : (loadReserve json i).endIdx = some j) : j = i + 1 := by
  unfold loadReserve at h
  cases h1 : json[i]? with
  | none => simp only [h1, ScanResult.endIdx] at h; exact Option.noConfusion h
  | some ch =>
    simp only [h1] at h
    repeat' split at h
    all_goals simp only [ScanResult.endIdx, Option.some.injEq] at h
    all_goals omega

theorem nextToken_sound (lx : JsonLexer) (t : TokenType) (lx1 : JsonLexer)
    (h : nextToken lx = some (t, lx1)) :
    lx1.json_text = lx.json_text ∧ lx.index ≤ lx1.index := by
  have hsw : lx.index ≤ skipWhitespace lx.json_text lx.index :=
    skipWhitespace_le lx.json_text lx.index
  unfold nextToken at h
  by_cases e1 : is_eof (skipWhitespace lx.json_text lx.index) lx.json_text.length = true
  · simp only [e1, if_true, Option.some.injEq, Prod.mk.injEq] at h
    obtain ⟨_, h2⟩ := h
    subst h2
    exact ⟨rfl, hsw⟩
  · simp only [e1, if_false, Bool.false_eq_true] at h
    cases h2 : lx.json_text[skipWhitespace lx.json_text lx.index]? with
    | none => simp only [h2] at h; exact Option.noConfusion h
    | some ch =>
      simp only [h2] at h
      by_cases e2 : (charIsNumeric ch || ch == 45) = true
      · simp only [e2, if_true] at h
        cases h3 : loadNumber lx.json_text (skipWhitespace lx.json_text lx.index) with
        | crash => simp only [h3] at h; exact Option.noConfusion h
        | fail j =>
          have hm : lx.index ≤ j := by
            have := loadNumber_mono lx.json_text (skipWhitespace lx.json_text lx.index) j
              (by rw [h3]; rfl)
            omega
          simp only [h3, Option.some.injEq, Prod.mk.injEq] at h
          obtain ⟨_, h4⟩ := h
          subst h4
          exact ⟨rfl, hm⟩
        | ok t0 j =>
          have hm : lx.index ≤ j := by
            have := loadNumber_mono lx.json_text (skipWhitespace lx.json_text lx.index) j
              (by rw [h3]; rfl)
            omega
          simp only [h3, Option.some.injEq, Prod.mk.injEq] at h
          obtain ⟨_, h4⟩ := h
          subst h4
          exact ⟨rfl, hm⟩
      · simp only [e2, if_false, Bool.false_eq_true] at h
        by_cases e3 : is_str_start ch = true
        · simp only [e3, if_true] at h
          cases h3 : loadString lx.json_text (skipWhitespace lx.json_text lx.index) with
          | crash => simp only [h3] at h; exact Option.noConfusion h
          | fail j =>
            have hm : lx.index ≤ j := by
              have := loadString_mono lx.json_text (skipWhitespace lx.json_text lx.index) j
                (by rw [h3]; rfl)
              omega
            simp only [h3, Option.some.injEq, Prod.mk.injEq] at h
            obtain ⟨_, h4⟩ := h
            subst h4
            exact ⟨rfl, hm⟩
          | ok t0 j =>
            have hm : lx.index ≤ j := by
              have := loadString_mono lx.json_text (skipWhitespace lx.json_text lx.index) j
                (by rw [h3]; rfl)
              omega
            simp only [h3, Option.some.injEq, Prod.mk.injEq] at h
            obtain ⟨_, h4⟩ := h
            subst h4
            exact ⟨rfl, hm⟩
        · simp only [e3, if_false, Bool.false_eq_true] at h
          cases h3 : loadBooleanOrNull lx.json_text (skipWhitespace lx.json_text lx.index) with
          | some p =>
            obtain ⟨t0, j⟩ := p
            have hm : lx.index ≤ j := by
              have := loadBooleanOrNull_le lx.json_text
                (skipWhitespace lx.json_text lx.index) t0 j h3
              omega
            simp only [h3, Option.some.injEq, Prod.mk.injEq] at h
            obtain ⟨_, h4⟩ := h
            subst h4
            exact ⟨rfl, hm⟩
          | none =>
            simp only [h3] at h
            cases h4 : loadReserve lx.json_text (skipWhitespace lx.json_text lx.index) with
            | crash => simp only [h4] at h; exact Option.noConfusion h
            | fail j =>
              have hm : j = skipWhitespace lx.json_text lx.index + 1 :=
                loadReserve_endIdx lx.json_text (skipWhitespace lx.json_text lx.index) j
                  (by rw [h4]; rfl)
              simp only [h4, Option.some.injEq, Prod.mk.injEq] at h
              obtain ⟨_, h5⟩ := h
              subst h5
              refine ⟨rfl, ?_⟩
              show lx.index ≤ j
              omega
            | ok t0 j =>
              have hm : j = skipWhitespace lx.json_text lx.index + 1 :=
                loadReserve_endIdx lx.json_text (skipWhitespace lx.json_text lx.index) j
                  (by rw [h4]; rfl)
              simp only [h4, Option.some.injEq, Prod.mk.injEq] at h
              obtain ⟨_, h5⟩ := h
              subst h5
              refine ⟨rfl, ?_⟩
              show lx.index ≤ j
              omega

theorem runSteps_text (k : Nat) :
    ∀ lx lx2 : JsonLexer, runSteps lx k = some lx2 → lx2.json_text = lx.json_text := by
  induction k with
  | zero =>
    intro lx lx2 h
    unfold runSteps at h
    obtain rfl : lx = lx2 := Option.some.inj h
    rfl
  | succ k ih =>
    intro lx lx2 h
    unfold runSteps at h
    cases h1 : nextToken lx with
    | none => rw [h1] at h; exact Option.noConfusion h
    | some p =>
      obtain ⟨t, lx1⟩ := p
      rw [h1] at h
      have h3 := ih lx1 lx2 h
      have h2 := (nextToken_sound lx t lx1 h1).1
      rw [h3, h2]

/-! ## The claims -/

/-- C1: the claim says `next_token` never reads outside the input buffer, on any
input.  The code violates it: evaluating the embedding shows an out-of-bounds
read (modelled by `none`) on a lone digit `5`, on a lone `-`, on `1.5e` (the
unchecked lowercase-`e` lookahead flagged by the spec), and on the unterminated
string `"ab`.  The intent of the spec (no crash on malformed input) is clear
and the code's pervasive `is_eof` guards show the reads were meant to be
checked, so this is recorded as a bug in the code. -/
theorem c1_out_of_bounds_reads :
    nextToken ⟨[53], 0⟩ = none ∧
    nextToken ⟨[45], 0⟩ = none ∧
    nextToken ⟨[49, 46, 53, 101], 0⟩ = none ∧
    nextToken ⟨[34, 97, 98], 0⟩ = none := by
  refine ⟨?_, ?_, ?_, ?_⟩ <;>
    simp +decide [nextToken, skipWhitespace, getIntegerNum, getIntegerNumLoop, loadNumber,
      loadString, loadStringLoop, strAdvance, loadReserve, loadBooleanOrNull, finishNumber,
      rustParseI64, rustParseF64, digitsVal, extract, utf8Lossy, utf8ContRange,
      replacementChar, isCont, is_eof, trueTok, falseTok, nullTok]

/-- C2: the claim says input consisting of exactly a valid scalar literal yields
the matching token.  The code violates it for the keyword literals: the bounds
check `!is_eof(index + len, size)` demands a byte beyond the literal, so the
exact inputs `true`, `false` and `null` all fall through to the
structural-symbol scanner and produce `Undefined` (cursor 1), while `true`
followed by one more byte produces `Boolean true`.  The spec's testable
property states the intent, so this is recorded as a bug in the code. -/
theorem c2_exact_keyword_inputs_fail :
    nextToken ⟨[116, 114, 117, 101], 0⟩ =
      some (.Undefined, ⟨[116, 114, 117, 101], 1⟩) ∧
    nextToken ⟨[102, 97, 108, 115, 101], 0⟩ =
      some (.Undefined, ⟨[102, 97, 108, 115, 101], 1⟩) ∧
    nextToken ⟨[110, 117, 108, 108], 0⟩ =
      some (.Undefined, ⟨[110, 117, 108, 108], 1⟩) ∧
    nextToken ⟨[116, 114, 117, 101, 32], 0⟩ =
      some (.Boolean true, ⟨[116, 114, 117, 101, 32], 4⟩) := by
  refine ⟨?_, ?_, ?_, ?_⟩ <;>
    simp +decide [nextToken, skipWhitespace, getIntegerNum, getIntegerNumLoop, loadNumber,
      loadString, loadStringLoop, strAdvance, loadReserve, loadBooleanOrNull, finishNumber,
      rustParseI64, rustParseF64, digitsVal, extract, utf8Lossy, utf8ContRange,
      replacementChar, isCont, is_eof, trueTok, falseTok, nullTok]

/-- C3 counterexample: on input `1e` the exponent marker is present with no
digit following, yet the token is `Number 1` (cursor left at the `e`), not
`Undefined`: the exponent test of `load_number` is only reachable after a
decimal point. -/
theorem c3_counterexample :
    nextToken ⟨[49, 101], 0⟩ = some (.Number 1, ⟨[49, 101], 1⟩) := by
  simp +decide [nextToken, skipWhitespace, getIntegerNum, getIntegerNumLoop, loadNumber,
    loadString, loadStringLoop, strAdvance, loadReserve, loadBooleanOrNull, finishNumber,
    rustParseI64, rustParseF64, digitsVal, extract, utf8Lossy, utf8ContRange,
    replacementChar, isCont, is_eof, trueTok, falseTok, nullTok]

/-- C3 amended: the exponent-digit check applies only to literals with a
decimal point.  For such a literal (`1.5e` here), when the byte after the
marker (and after a consumed sign) is present but not a digit the scan fails
and the token is `Undefined` with the cursor on that byte — e.g. `1.5e` + `c`
for any non-digit `c` other than the signs, and `1.5e+` whose `+` is not
consumed because no byte follows it.  A lowercase `e` as the final byte is
instead an out-of-bounds read.  (Without a decimal point, `1e` is `Number 1`:
see the counterexample.) -/
theorem c3_amended (c : Nat) (h1 : charIsNumeric c = false) (h2 : c ≠ 45) (h3 : c ≠ 43) :
    nextToken ⟨[49, 46, 53, 101, c], 0⟩ =
      some (.Undefined, ⟨[49, 46, 53, 101, c], 4⟩) ∧
    nextToken ⟨[49, 46, 53, 101, 43], 0⟩ =
      some (.Undefined, ⟨[49, 46, 53, 101, 43], 4⟩) ∧
    nextToken ⟨[49, 46, 53, 101], 0⟩ = none := by
  refine ⟨?_, ?_, ?_⟩ <;>
    simp +decide [nextToken, skipWhitespace, getIntegerNum, getIntegerNumLoop, loadNumber,
      finishNumber, is_eof, h1, h2, h3]

/-- C3 witness: the amended statement at the concrete non-digit byte `x`. -/
theorem c3_amended_witness :
    nextToken ⟨[49, 46, 53, 101, 120], 0⟩ =
      some (.Undefined, ⟨[49, 46, 53, 101, 120], 4⟩) ∧
    nextToken ⟨[49, 46, 53, 101, 43], 0⟩ =
      some (.Undefined, ⟨[49, 46, 53, 101, 43], 4⟩) ∧
    nextToken ⟨[49, 46, 53, 101], 0⟩ = none :=
  c3_amended 120 (by decide) (by decide) (by decide)

/-- C4 counterexample: the claim says the `String` payload is exactly the bytes
strictly between the delimiters.  For input `"` `0xFF` `"` the scan succeeds
but the payload is the replacement character U+FFFD (bytes `EF BF BD`), not the
byte `FF`: the source decodes the span with `String::from_utf8_lossy`. -/
theorem c4_counterexample :
    nextToken ⟨[34, 255, 34], 0⟩ =
      some (.String [239, 191, 189], ⟨[34, 255, 34], 3⟩) ∧
    ([239, 191, 189] : List Nat) ≠ [255] := by
  refine ⟨?_, by decide⟩
  simp +decide [nextToken, skipWhitespace, getIntegerNum, getIntegerNumLoop, loadNumber,
    loadString, loadStringLoop, strAdvance, loadReserve, loadBooleanOrNull, finishNumber,
    rustParseI64, rustParseF64, digitsVal, extract, utf8Lossy, utf8ContRange,
    replacementChar, isCont, is_eof, trueTok, falseTok, nullTok]

/-- C4 amended: on every successful string scan the payload is the
UTF-8-lossy decoding of the byte span strictly between the opening quote (at
the starting cursor `i`) and the closing delimiter (at `j - 1`, which holds
the same quote byte), with escape pairs kept verbatim inside the span, and the
final cursor `j` is just past the closing delimiter. -/
theorem c4_amended (json : List Nat) (i j : Nat) (t : TokenType)
    (h : loadString json i = .ok t j) :
    ∃ q, json[i]? = some q ∧ json[j - 1]? = some q ∧ i + 2 ≤ j ∧
      t = .String (utf8Lossy (extract json (i + 1) (j - 1))) := by
  unfold loadString at h
  cases h1 : json[i]? with
  | none => rw [h1] at h; exact ScanResult.noConfusion h
  | some q =>
    rw [h1] at h
    cases h2 : json[i + 1]? with
    | none => simp only [h2] at h; exact ScanResult.noConfusion h
    | some ch0 =>
      simp only [h2] at h
      cases h3 : loadStringLoop json q ch0 (i + 1) with
      | none => simp only [h3] at h; exact ScanResult.noConfusion h
      | some p =>
        obtain ⟨ch, idx2⟩ := p
        obtain ⟨hj, hle, hq⟩ := loadStringLoop_spec json q ch0 (i + 1) h2 ch idx2 h3
        simp only [h3] at h
        by_cases e1 : ch ≠ 10
        · simp only [if_pos e1, ScanResult.ok.injEq] at h
          obtain ⟨ht, hjj⟩ := h
          have hchq : q = ch := by
            cases hq with
            | inl hcq => exact hcq.symm
            | inr hc10 => exact absurd hc10 e1
          refine ⟨q, rfl, ?_, by omega, ?_⟩
          · have he : idx2 + 1 - 1 = idx2 := by omega
            rw [← hjj, he, hchq]
            exact hj
          · rw [← ht, ← hjj]
        · simp only [if_neg e1] at h
          exact ScanResult.noConfusion h

/-- C4 witness: the amended statement at the spec's own example, the input
`"a\"b"`, whose payload keeps the backslash-quote pair verbatim. -/
theorem c4_amended_witness :
    ∃ q, ([34, 97, 92, 34, 98, 34] : List Nat)[0]? = some q ∧
      ([34, 97, 92, 34, 98, 34] : List Nat)[6 - 1]? = some q ∧ 0 + 2 ≤ 6 ∧
      TokenType.String [97, 92, 34, 98] =
        .String (utf8Lossy (extract [34, 97, 92, 34, 98, 34] (0 + 1) (6 - 1))) := by
  have h : loadString [34, 97, 92, 34, 98, 34] 0 = .ok (.String [97, 92, 34, 98]) 6 := by
    simp +decide [loadString, loadStringLoop, strAdvance, extract, utf8Lossy, utf8ContRange,
      replacementChar, isCont, is_eof]
  exact c4_amended [34, 97, 92, 34, 98, 34] 0 6 (.String [97, 92, 34, 98]) h

/-- If, starting inside a string, the bytes up to the first newline contain no
quote, no backslash and no newline, the string loop stops on that newline with
the cursor on it and reports it as the final character. -/
theorem loadStringLoop_hits_newline (json : List Nat) (q : Nat) (hq : q ≠ 10) :
    ∀ (mid rest : List Nat) (i : Nat),
      (∀ b ∈ mid, b ≠ q ∧ b ≠ 92 ∧ b ≠ 10) →
      json.drop i = mid ++ 10 :: rest →
      loadStringLoop json q ((mid ++ 10 :: rest).headD 0) i = some (10, i + mid.length) := by
  intro mid
  induction mid with
  | nil =>
    intro rest i hmid hdrop
    simp only [List.nil_append, List.headD_cons, List.length_nil, Nat.add_zero]
    have hlen : i < json.length := by
      by_contra hle
      rw [List.drop_eq_nil_iff.mpr (by omega)] at hdrop
      exact List.noConfusion hdrop
    rw [loadStringLoop]
    have hg : (10 : Nat) ≠ q ∧ i < json.length := ⟨fun h => hq h.symm, hlen⟩
    simp only [dif_pos hg, if_neg (by simp : ¬ (10 : Nat) ≠ 10)]
    have hadv : strAdvance 10 i = i := by unfold strAdvance; simp
    rw [hadv]
  | cons b mid2 ih =>
    intro rest i hmid hdrop
    have hb := hmid b (List.mem_cons_self b mid2)
    simp only [List.cons_append, List.headD_cons]
    have hlen : i < json.length := by
      by_contra hle
      rw [List.drop_eq_nil_iff.mpr (by omega)] at hdrop
      exact List.noConfusion hdrop
    have hdroplen : (json.drop i).length = json.length - i := List.length_drop i json
    rw [hdrop] at hdroplen
    simp only [List.length_cons, List.length_append] at hdroplen
    have hdrop2 : json.drop (i + 1) = mid2 ++ 10 :: rest := by
      rw [← List.tail_drop, hdrop]
      rfl
    rw [loadStringLoop]
    have hg : b ≠ q ∧ i < json.length := ⟨hb.1, hlen⟩
    simp only [dif_pos hg, if_pos hb.2.2]
    have hadv : strAdvance b i = i := by
      unfold strAdvance
      simp [hb.2.1]
    rw [hadv]
    have h2 : i + 1 < json.length := by omega
    simp only [dif_pos h2]
    have hget : json.getD (i + 1) 0 = (mid2 ++ 10 :: rest).headD 0 := by
      have h0 : json[i + 1]? = some ((mid2 ++ 10 :: rest).headD 0) := by
        have hd := List.getElem?_drop json (i + 1) 0
        rw [hdrop2] at hd
        cases mid2 <;> simp_all
      rw [List.getElem?_eq_getElem (by omega), Option.some.injEq] at h0
      rw [List.getD_eq_getElem json 0 (by omega), h0]
    rw [hget, ih rest (i + 1) (fun c hc => hmid c (List.mem_cons_of_mem b hc)) hdrop2]
    have : i + 1 + mid2.length = i + (b :: mid2).length := by
      simp only [List.length_cons]
      omega
    rw [this]

/-- C5 counterexample: the claim says any literal newline between the opening
quote and the closing delimiter makes the scan fail.  In `"` `\` newline `x`
`"` the newline sits between the delimiters, yet the scan succeeds (payload
backslash-newline-`x`): the backslash escape skips the newline without ever
testing it. -/
theorem c5_counterexample :
    nextToken ⟨[34, 92, 10, 120, 34], 0⟩ =
      some (.String [92, 10, 120], ⟨[34, 92, 10, 120, 34], 5⟩) := by
  simp +decide [nextToken, skipWhitespace, getIntegerNum, getIntegerNumLoop, loadNumber,
    loadString, loadStringLoop, strAdvance, loadReserve, loadBooleanOrNull, finishNumber,
    rustParseI64, rustParseF64, digitsVal, extract, utf8Lossy, utf8ContRange,
    replacementChar, isCont, is_eof, trueTok, falseTok, nullTok]

/-- C5 amended: an *unescaped* literal newline before the closing delimiter
makes the string scan fail with `Undefined` and the cursor on the newline
(shown for any newline reached across bytes that are not quote, backslash or
newline); a newline skipped by a backslash escape is instead retained (see the
counterexample).  When end of input is reached before the closing delimiter
the code does not produce `Undefined` at all: it reads past the end of the
buffer (second conjunct, the unterminated input `"ab`). -/
theorem c5_amended (mid rest : List Nat)
    (hmid : ∀ b ∈ mid, b ≠ 34 ∧ b ≠ 92 ∧ b ≠ 10) :
    nextToken ⟨34 :: (mid ++ 10 :: rest), 0⟩ =
      some (.Undefined, ⟨34 :: (mid ++ 10 :: rest), mid.length + 1⟩) ∧
    nextToken ⟨[34, 97, 98], 0⟩ = none := by
  constructor
  · have h1 : (mid ++ 10 :: rest)[0]? = some ((mid ++ 10 :: rest).headD 0) := by
      cases mid <;> simp
    have hloop : loadStringLoop (34 :: (mid ++ 10 :: rest)) 34 ((mid ++ 10 :: rest).headD 0) 1 =
        some (10, 1 + mid.length) :=
      loadStringLoop_hits_newline (34 :: (mid ++ 10 :: rest)) 34 (by decide) mid rest 1
        hmid (by simp)
    have hls : loadString (34 :: (mid ++ 10 :: rest)) 0 = .fail (mid.length + 1) := by
      unfold loadString
      simp only [List.getElem?_cons_zero, List.getElem?_cons_succ, Nat.zero_add, h1, hloop]
      simp [Nat.add_comm]
    have hsw : skipWhitespace (34 :: (mid ++ 10 :: rest)) 0 = 0 := by
      rw [skipWhitespace]
      simp only [dif_pos (by simp : 0 < (34 :: (mid ++ 10 :: rest)).length)]
      simp +decide [List.getD_cons_zero]
    have he : ∀ k : Nat, is_eof 0 (k + 1) = false := fun k => rfl
    simp only [nextToken, hsw]
    simp +decide [he, hls, is_str_start]
  · simp +decide [nextToken, skipWhitespace, getIntegerNum, getIntegerNumLoop, loadNumber,
      loadString, loadStringLoop, strAdvance, loadReserve, loadBooleanOrNull, finishNumber,
      rustParseI64, rustParseF64, digitsVal, extract, utf8Lossy, utf8ContRange,
      replacementChar, isCont, is_eof, trueTok, falseTok, nullTok]

/-- C5 witness: the amended statement at the concrete input `"a` newline. -/
theorem c5_amended_witness :
    nextToken ⟨[34, 97, 10], 0⟩ = some (.Undefined, ⟨[34, 97, 10], 2⟩) ∧
    nextToken ⟨[34, 97, 98], 0⟩ = none :=
  c5_amended [97] [] (by decide)

/-- C6 counterexample: the byte 0xB2 (the character `²`) is not an ASCII digit,
not `-`, not a quote and no keyword starts with it, and it is not one of the
six punctuation bytes, so per the claim the scan should fail with `Undefined`.
Instead `char::is_numeric` holds for `²`, the byte is dispatched to the number
scanner, and the call reads out of bounds (`none`). -/
theorem c6_counterexample : nextToken ⟨[178], 0⟩ = none := by
  simp +decide [nextToken, skipWhitespace, getIntegerNum, getIntegerNumLoop, loadNumber,
    loadString, loadStringLoop, strAdvance, loadReserve, loadBooleanOrNull, finishNumber,
    rustParseI64, rustParseF64, digitsVal, extract, utf8Lossy, utf8ContRange,
    replacementChar, isCont, is_eof, trueTok, falseTok, nullTok]

/-- C6 amended: for a single byte of input that is not numeric in the sense of
`char::is_numeric` (ASCII digit or one of the six Latin-1 numeric characters),
not `-` and not a quote, the call consumes exactly that byte: one of the six
punctuation bytes produces the corresponding structural symbol, and any other
such byte produces `Undefined`, the cursor ending at 1 either way. -/
theorem c6_amended (b : Nat) (h1 : charIsNumeric b = false) (h2 : b ≠ 45) (h3 : b ≠ 34) :
    nextToken ⟨[b], 0⟩ =
      some ((if b = 123 then .Reserve .OpenBrace
        else if b = 125 then .Reserve .CloseBrace
        else if b = 91 then .Reserve .OpenBracket
        else if b = 93 then .Reserve .CloseBracket
        else if b = 58 then .Reserve .Colon
        else if b = 44 then .Reserve .Comma
        else .Undefined), ⟨[b], 1⟩) := by
  by_cases hw : isAsciiWhitespace b = true
  · have hws : (((b = 32 ∨ b = 9) ∨ b = 10) ∨ b = 12) ∨ b = 13 := by
      simpa [isAsciiWhitespace] using hw
    rcases hws with (((rfl | rfl) | rfl) | rfl) | rfl <;>
      simp +decide [nextToken, skipWhitespace, loadBooleanOrNull, loadReserve, is_eof,
        is_str_start, trueTok, falseTok, nullTok, extract]
  · by_cases e1 : b = 123
    · subst e1
      simp +decide [nextToken, skipWhitespace, loadBooleanOrNull, loadReserve, is_eof,
        is_str_start, trueTok, falseTok, nullTok, extract]
    · by_cases e2 : b = 125
      · subst e2
        simp +decide [nextToken, skipWhitespace, loadBooleanOrNull, loadReserve, is_eof,
          is_str_start, trueTok, falseTok, nullTok, extract]
      · by_cases e3 : b = 91
        · subst e3
          simp +decide [nextToken, skipWhitespace, loadBooleanOrNull, loadReserve, is_eof,
            is_str_start, trueTok, falseTok, nullTok, extract]
        · by_cases e4 : b = 93
          · subst e4
            simp +decide [nextToken, skipWhitespace, loadBooleanOrNull, loadReserve, is_eof,
              is_str_start, trueTok, falseTok, nullTok, extract]
          · by_cases e5 : b = 58
            · subst e5
              simp +decide [nextToken, skipWhitespace, loadBooleanOrNull, loadReserve, is_eof,
                is_str_start, trueTok, falseTok, nullTok, extract]
            · by_cases e6 : b = 44
              · subst e6
                simp +decide [nextToken, skipWhitespace, loadBooleanOrNull, loadReserve, is_eof,
                  is_str_start, trueTok, falseTok, nullTok, extract]
              · have hsw : skipWhitespace [b] 0 = 0 := by
                  rw [skipWhitespace]
                  simp only [dif_pos (by simp : 0 < ([b] : List Nat).length)]
                  simp [List.getD_cons_zero, hw]
                simp only [nextToken, hsw]
                simp +decide [h1, h2, h3, e1, e2, e3, e4, e5, e6, is_str_start,
                  loadBooleanOrNull, loadReserve, is_eof, trueTok, falseTok, nullTok]

/-- C6 witness: the amended statement at the unrecognized byte `@`. -/
theorem c6_amended_witness :
    nextToken ⟨[64], 0⟩ = some (.Undefined, ⟨[64], 1⟩) := by
  simpa using c6_amended 64 (by decide) (by decide) (by decide)

/-- C7: when whitespace-skipping from the current cursor reaches (or the cursor
has already passed) the end of the text, the call produces `Undefined` with the
cursor at the skip result, and from that state every further call produces
`Undefined` again without changing the state at all (the post-skip state is a
fixed point, so scanning at end of stream is idempotent). -/
theorem c7_eof_idempotent (lx : JsonLexer)
    (h : lx.json_text.length ≤ skipWhitespace lx.json_text lx.index) :
    nextToken lx = some (.Undefined, ⟨lx.json_text, skipWhitespace lx.json_text lx.index⟩) ∧
    nextToken ⟨lx.json_text, skipWhitespace lx.json_text lx.index⟩ =
      some (.Undefined, ⟨lx.json_text, skipWhitespace lx.json_text lx.index⟩) := by
  have he : is_eof (skipWhitespace lx.json_text lx.index) lx.json_text.length = true := by
    simp only [is_eof, Nat.ble_eq]
    exact h
  constructor
  · unfold nextToken
    simp only [he, if_true]
  · unfold nextToken
    simp only [skipWhitespace_eof lx.json_text (skipWhitespace lx.json_text lx.index) h, he,
      if_true]

/-- C7 witness: a single-space input from cursor 0. -/
theorem c7_eof_idempotent_witness :
    nextToken ⟨[32], 0⟩ = some (.Undefined, ⟨[32], skipWhitespace [32] 0⟩) ∧
    nextToken ⟨[32], skipWhitespace [32] 0⟩ =
      some (.Undefined, ⟨[32], skipWhitespace [32] 0⟩) :=
  c7_eof_idempotent ⟨[32], 0⟩ (by simp +decide [skipWhitespace])

/-- C8: `reset` puts the cursor at 0 and leaves the text untouched, it is
idempotent, and after any number of `next_token` calls from a fresh lexer,
resetting yields exactly the fresh lexer again, so re-scanning reproduces the
same token trace as the original scan from position 0. -/
theorem c8_reset_rescan (text : List Nat) (k n : Nat) (lx : JsonLexer)
    (h : runSteps ⟨text, 0⟩ k = some lx) :
    reset lx = ⟨text, 0⟩ ∧ (reset lx).index = 0 ∧ (reset lx).json_text = lx.json_text ∧
    reset (reset lx) = reset lx ∧ tokenTrace (reset lx) n = tokenTrace ⟨text, 0⟩ n := by
  have htext : lx.json_text = text := runSteps_text k ⟨text, 0⟩ lx h
  obtain ⟨jt, ix⟩ := lx
  have hjt : jt = text := htext
  subst hjt
  exact ⟨rfl, rfl, rfl, rfl, rfl⟩

/-- C8 witness: one scan step on the input `{`, then reset, with a trace of
length 2 compared. -/
theorem c8_reset_rescan_witness :
    reset ⟨[123], 1⟩ = ⟨[123], 0⟩ ∧ (reset (⟨[123], 1⟩ : JsonLexer)).index = 0 ∧
    (reset (⟨[123], 1⟩ : JsonLexer)).json_text = (⟨[123], 1⟩ : JsonLexer).json_text ∧
    reset (reset ⟨[123], 1⟩) = reset ⟨[123], 1⟩ ∧
    tokenTrace (reset ⟨[123], 1⟩) 2 = tokenTrace ⟨[123], 0⟩ 2 := by
  refine c8_reset_rescan [123] 1 2 ⟨[123], 1⟩ ?_
  have h1 : nextToken ⟨[123], 0⟩ = some (.Reserve .OpenBrace, ⟨[123], 1⟩) := by
    simp +decide [nextToken, skipWhitespace, loadReserve, loadBooleanOrNull, is_eof,
      is_str_start, trueTok, falseTok, nullTok, extract]
  simp [runSteps, h1]

/-- C9: no operation modifies the source text: `next_token` preserves it and
never moves the cursor backwards (scan success and scan failure alike), and
`reset` preserves it while placing the cursor exactly at 0. -/
theorem c9_invariants :
    (∀ (lx : JsonLexer) (t : TokenType) (lx1 : JsonLexer),
        nextToken lx = some (t, lx1) →
          lx1.json_text = lx.json_text ∧ lx.index ≤ lx1.index) ∧
    (∀ lx : JsonLexer, (reset lx).json_text = lx.json_text ∧ (reset lx).index = 0) :=
  ⟨nextToken_sound, fun _ => ⟨rfl, rfl⟩⟩

/-- C9 witness: the `next_token` part applied to the input `{` at cursor 0. -/
theorem c9_invariants_witness :
    (⟨[123], 1⟩ : JsonLexer).json_text = (⟨[123], 0⟩ : JsonLexer).json_text ∧
    (⟨[123], 0⟩ : JsonLexer).index ≤ (⟨[123], 1⟩ : JsonLexer).index := by
  refine c9_invariants.1 ⟨[123], 0⟩ (.Reserve .OpenBrace) ⟨[123], 1⟩ ?_
  simp +decide [nextToken, skipWhitespace, loadReserve, loadBooleanOrNull, is_eof,
    is_str_start, trueTok, falseTok, nullTok, extract]

/-- C10: whenever `next_token` dispatches to the structural-symbol scanner
(cursor byte not numeric, not `-`, not a quote, keyword scanner reports no
match) and the byte is not one of the six punctuation bytes, the failing call
still advances the cursor exactly one byte past the offending character while
setting the token to `Undefined`. -/
theorem c10_reserve_failure_advances (lx : JsonLexer) (j b : Nat)
    (hj : skipWhitespace lx.json_text lx.index = j)
    (hb : lx.json_text[j]? = some b)
    (h1 : charIsNumeric b = false) (h2 : b ≠ 45) (h3 : b ≠ 34)
    (h4 : loadBooleanOrNull lx.json_text j = none)
    (h5 : b ∉ ([123, 125, 91, 93, 58, 44] : List Nat)) :
    nextToken lx = some (.Undefined, ⟨lx.json_text, j + 1⟩) := by
  have hlt : j < lx.json_text.length := (List.getElem?_eq_some_iff.mp hb).1
  have he : is_eof j lx.json_text.length = false := by
    rw [Bool.eq_false_iff]
    intro habs
    simp only [is_eof, Nat.ble_eq] at habs
    omega
  simp only [List.mem_cons, List.not_mem_nil, or_false] at h5
  push_neg at h5
  have hres : loadReserve lx.json_text j = .fail (j + 1) := by
    unfold loadReserve
    simp only [hb]
    simp [h5.1, h5.2.1, h5.2.2.1, h5.2.2.2.1, h5.2.2.2.2.1, h5.2.2.2.2.2]
  simp only [nextToken, hj, he, Bool.false_eq_true, if_false, hb, h4, hres]
  simp [h1, h2, h3, is_str_start]

/-- C10 witness: the byte `@` at cursor 0. -/
theorem c10_reserve_failure_advances_witness :
    nextToken ⟨[64], 0⟩ = some (.Undefined, ⟨[64], 0 + 1⟩) := by
  refine c10_reserve_failure_advances ⟨[64], 0⟩ 0 64 ?_ (by decide) (by decide) (by decide)
    (by decide) ?_ (by decide)
  · simp +decide [skipWhitespace]
  · decide
